import Mathlib

/-!
Verification of the directory index core of `src/file.rs` (rustypaste).

The Rust code builds a content-addressable index (`Directory`) over a
directory tree: `Directory::try_from` globs all entries under the root,
drops directories and unreadable files, sums the sizes of the files it
managed to open (`total_size`), and records `(path, sha256sum)` for every
file it managed to hash.  `Directory::get_file` looks a checksum up,
skipping records whose path matches the timestamp-suffix regex, and
`Directory::is_over_size_limit` compares `total_size` with a threshold.

The embedding below replaces the filesystem by explicit data: each glob
entry carries the outcomes the Rust code would observe (`is_dir`, the
result of `File::open`, of `metadata().len()` and of `sha256_digest`),
and the iterator pipeline with its captured mutable `total_size` becomes
a left fold.  `u64` arithmetic is modelled as `Nat` with reduction
modulo `2 ^ 64` where the Rust code adds.
-/

/-- File record, from `struct File` in `src/file.rs`: the path of the file
(`PathBuf`, modelled as the string the code later obtains by
`to_string_lossy`) and its SHA256 checksum (lowercase hex `String`). -/
structure File where
  path : String
  sha256sum : String
deriving DecidableEq

/-- Directory index, from `struct Directory` in `src/file.rs`: the list of
successfully hashed files and the total size in bytes accumulated during
the scan (`u64` in Rust, modelled as a `Nat` kept below `2 ^ 64`). -/
structure Directory where
  files : List File
  total_size : Nat
deriving DecidableEq

/-- Outcomes the scan observes on a file it managed to open
(`OsFile::open` succeeded): `metadataLen` is `file.metadata().ok()` then
`.len()` (`none` when the metadata query fails), `sha256Digest` is the
result of `util::sha256_digest(file)` (`none` when reading or hashing
fails). -/
structure OpenFile where
  metadataLen : Option Nat
  sha256Digest : Option String
deriving DecidableEq

/-- One glob entry as the scan observes it: its path, whether
`path.is_dir()` holds, and the result of `OsFile::open(&path)` (`none`
when opening fails, e.g. permission denied). -/
structure DirEntry where
  path : String
  isDir : Bool
  openResult : Option OpenFile
deriving DecidableEq

/-- The two fatal failures of `Directory::try_from`: the joined pattern
path is not valid unicode (`to_str` returned `None`, reported as
"directory contains invalid characters"), or `glob` rejected the pattern
(`PatternError`).  Both are mapped to `error::ErrorInternalServerError`
in the Rust code. -/
inductive BuildError where
  | invalidPathChars
  | patternInvalid
deriving DecidableEq

/-- Wrapping `u64` addition: the `total_size += size` line of
`Directory::try_from` adds two `u64` values, which wraps modulo
`2 ^ 64`. -/
def wrapAdd (a s : Nat) : Nat :=
  (a + s) % 2 ^ 64

/-- One step of the scan pipeline of `Directory::try_from`, on one glob
entry.  The accumulator carries the captured mutable `total_size`
(first component, `u64` arithmetic modelled modulo `2 ^ 64`) and the
records collected so far.  Mirrors, in order: `.filter_map(Result::ok)`,
`.filter(|path| !path.is_dir())`, the `filter_map` that opens the file
and adds `metadata().ok()?.len()` to `total_size`, and the `filter_map`
that keeps the file only when `util::sha256_digest` succeeds. -/
def scanStep (acc : Nat × List File) (entry : Except Unit DirEntry) :
    Nat × List File :=
  match entry with
  | .error _ => acc
  | .ok e =>
    if e.isDir then acc
    else
      match e.openResult with
      | none => acc
      | some f =>
        match f.metadataLen with
        | none => acc
        | some size =>
          let total := wrapAdd acc.1 size
          match f.sha256Digest with
          | none => (total, acc.2)
          | some h => (total, acc.2 ++ [⟨e.path, h⟩])

/-- Build of the index, from `impl TryFrom<&Path> for Directory` in
`src/file.rs`.  The filesystem is passed in explicitly: `pathStr` is the
result of `directory.join("**").join("*").to_str()` and `globFn` is the
glob engine, returning either a pattern error or the list of per-entry
results (`Err` entries are the per-entry iteration errors that
`.filter_map(Result::ok)` drops). -/
def Directory.tryFrom (pathStr : Option String)
    (globFn : String → Except Unit (List (Except Unit DirEntry))) :
    Except BuildError Directory :=
  match pathStr with
  | none => .error .invalidPathChars
  | some pat =>
    match globFn pat with
    | .error _ => .error .patternInvalid
    | .ok entries =>
      let r := entries.foldl scanStep (0, [])
      .ok ⟨r.2, r.1⟩

/-- Modelled from the spec: `util::TIMESTAMP_EXTENSION_REGEX` lives in
`src/util.rs`, which is not part of the provided sources; only its use
site in `Directory::get_file` is.  Per the spec, a path is excluded when
its filename (the last `/`-separated component) carries an
auto-generated timestamp suffix, the scenario naming
`upload-20230101120000.png` as excluded and `upload.png` as not.  We
model the matcher as: the filename's stem (the part before the last
`.`, or the whole filename when it has no `.`) ends in a dash followed
by exactly 14 decimal digits (a `YYYYMMDDHHMMSS` timestamp). -/
def TIMESTAMP_EXTENSION_REGEX_isMatch (path : String) : Bool :=
  let name := (path.data.reverse.takeWhile (fun c => c ≠ '/')).reverse
  let rname := name.reverse
  let rstem := if rname.contains '.' then (rname.dropWhile (fun c => c ≠ '.')).drop 1 else rname
  (rstem.takeWhile Char.isDigit).length = 14 && rstem.get? 14 == some '-'

/-- Lookup, from `Directory::get_file` in `src/file.rs`: the first record
whose `sha256sum` equals the query and whose path does not match the
timestamp-suffix regex (the Rust code matches the regex against
`file.path.to_string_lossy()`, which is the stored path string here). -/
def Directory.get_file (d : Directory) (sha256sum : String) : Option File :=
  d.files.find? fun file =>
    file.sha256sum == sha256sum && !TIMESTAMP_EXTENSION_REGEX_isMatch file.path

/-- Quota predicate, from `Directory::is_over_size_limit` in
`src/file.rs`: `self.total_size > max_size.get_bytes()`, with the
threshold already taken as its byte count. -/
def Directory.is_over_size_limit (d : Directory) (max_size : Nat) : Bool :=
  d.total_size > max_size

/-- Size contribution of one glob entry to `total_size`: the metadata
length when the entry is a non-directory file that was opened and whose
metadata query succeeded, nothing otherwise.  This is what the
`total_size += size` line of `Directory::try_from` adds, before the
hashing stage runs. -/
def sizeContribution : Except Unit DirEntry → Option Nat
  | .error _ => none
  | .ok e =>
    if e.isDir then none
    else
      match e.openResult with
      | none => none
      | some f => f.metadataLen

/-- Record produced by one glob entry: present exactly when the entry is
a non-directory file that was opened, its metadata query succeeded and
its hashing succeeded. -/
def recordOf : Except Unit DirEntry → Option File
  | .error _ => none
  | .ok e =>
    if e.isDir then none
    else
      match e.openResult with
      | none => none
      | some f =>
        match f.metadataLen with
        | none => none
        | some _ =>
          match f.sha256Digest with
          | none => none
          | some h => some ⟨e.path, h⟩

/-- Per-file failure during the scan: an enumeration entry error, or a
non-directory file that failed to open, or whose metadata query failed,
or whose read/hash failed. -/
def perFileFailure : Except Unit DirEntry → Bool
  | .error _ => true
  | .ok e =>
    !e.isDir &&
      (match e.openResult with
       | none => true
       | some f => f.metadataLen.isNone || f.sha256Digest.isNone)

theorem foldl_scanStep (entries : List (Except Unit DirEntry))
    (t : Nat) (fs : List File) :
    entries.foldl scanStep (t, fs) =
      ((entries.filterMap sizeContribution).foldl wrapAdd t,
       fs ++ entries.filterMap recordOf) := by
  induction entries generalizing t fs with
  | nil => simp
  | cons x xs ih =>
    cases x with
    | error e => simpa [scanStep, sizeContribution, recordOf] using ih t fs
    | ok e =>
      by_cases hd : e.isDir
      · simpa [scanStep, sizeContribution, recordOf, hd] using ih t fs
      · cases ho : e.openResult with
        | none => simpa [scanStep, sizeContribution, recordOf, hd, ho] using ih t fs
        | some f =>
          cases hm : f.metadataLen with
          | none => simpa [scanStep, sizeContribution, recordOf, hd, ho, hm] using ih t fs
          | some size =>
            cases hh : f.sha256Digest with
            | none =>
              simp [scanStep, sizeContribution, recordOf, hd, ho, hm, hh, ih]
            | some h =>
              simp [scanStep, sizeContribution, recordOf, hd, ho, hm, hh, ih]

theorem tryFrom_ok (pat : String)
    (globFn : String → Except Unit (List (Except Unit DirEntry)))
    (entries : List (Except Unit DirEntry))
    (hg : globFn pat = .ok entries) :
    Directory.tryFrom (some pat) globFn =
      .ok ⟨entries.filterMap recordOf,
           (entries.filterMap sizeContribution).foldl wrapAdd 0⟩ := by
  simp [Directory.tryFrom, hg, foldl_scanStep]

/-- Spec-side lookup, following the spec's words for `get_file`: scan the
records in index order and return the first one whose `content_hash`
equals the queried hash (exact, case-sensitive string equality) and
whose path does not match the timestamp-suffix exclusion predicate.
Stated to be compared with `Directory.get_file` (C3). -/
def firstMatchSpec (h : String) : List File → Option File
  | [] => none
  | f :: fs =>
    if f.sha256sum = h ∧ TIMESTAMP_EXTENSION_REGEX_isMatch f.path = false then some f
    else firstMatchSpec h fs

/-- Query against a built index: a lookup (`Directory::get_file`) or a
quota check (`Directory::is_over_size_limit`).  Both borrow the index
immutably (`&self`), so running one yields its answer and carries the
index forward unchanged — `runQuery` is this reading of the Rust
signatures. -/
inductive Query where
  | lookup (h : String)
  | quota (m : Nat)

/-- Run one query: its answer plus the index the caller keeps holding. -/
def runQuery (d : Directory) : Query → (Option File ⊕ Bool) × Directory
  | .lookup h => (.inl (d.get_file h), d)
  | .quota m => (.inr (d.is_over_size_limit m), d)

/-- Run a sequence of queries, threading the index through. -/
def runQueries (d : Directory) (qs : List Query) : Directory :=
  qs.foldl (fun s q => (runQuery s q).2) d

/-- C3: for every built Index and query string `h`, `get_file h` scans the
records in index order and returns the first record whose content hash
equals `h` under exact string equality and whose path does not match the
timestamp-suffix exclusion predicate — i.e. it coincides with the
spec-side `firstMatchSpec`. -/
theorem get_file_eq_firstMatchSpec (d : Directory) (h : String) :
    d.get_file h = firstMatchSpec h d.files := by
  show d.files.find? _ = _
  induction d.files with
  | nil => rfl
  | cons f fs ih =>
    by_cases hc : f.sha256sum = h ∧ TIMESTAMP_EXTENSION_REGEX_isMatch f.path = false
    · rw [List.find?_cons_of_pos, firstMatchSpec, if_pos hc]
      simp [hc.1, hc.2]
    · rw [List.find?_cons_of_neg, firstMatchSpec, if_neg hc, ih]
      simp only [not_and] at hc
      by_cases hs : f.sha256sum = h
      · simp [hs, hc hs]
      · simp [hs]

/-- C4: for every built Index and byte threshold `x`,
`is_over_size_limit x` is `true` iff `x < total_size`; at the boundary,
`is_over_size_limit total_size` is `false`. -/
theorem is_over_size_limit_iff (d : Directory) (x : Nat) :
    (d.is_over_size_limit x = true ↔ x < d.total_size) ∧
      d.is_over_size_limit d.total_size = false := by
  constructor
  · simp [Directory.is_over_size_limit]
  · simp [Directory.is_over_size_limit]

/-- C5: the build fails with an error iff the root path cannot be
converted to the glob pattern string (`to_str` returned `none`) or the
glob engine rejects the pattern; under any other condition it returns an
Index. -/
theorem build_error_iff (pathStr : Option String)
    (globFn : String → Except Unit (List (Except Unit DirEntry))) :
    ((∃ e, Directory.tryFrom pathStr globFn = .error e) ↔
        (pathStr = none ∨ ∃ pat, pathStr = some pat ∧ ∃ u, globFn pat = .error u)) ∧
      ((∃ d, Directory.tryFrom pathStr globFn = .ok d) ↔
        ¬(pathStr = none ∨ ∃ pat, pathStr = some pat ∧ ∃ u, globFn pat = .error u)) := by
  cases pathStr with
  | none => simp [Directory.tryFrom]
  | some pat =>
    cases hg : globFn pat with
    | error u => simp [Directory.tryFrom, hg]
    | ok entries => simp [Directory.tryFrom, hg]

/-- C7: for every built Index and hash `h`, if no record has content hash
`h` then `get_file h` returns nothing. -/
theorem get_file_none_of_no_hash (d : Directory) (h : String)
    (hna : ∀ f ∈ d.files, f.sha256sum ≠ h) : d.get_file h = none := by
  apply List.find?_eq_none.mpr
  intro f hf
  simp [hna f hf]

/-- Witness for C7 at a concrete index and hash. -/
theorem get_file_none_of_no_hash_witness :
    (∀ f ∈ (Directory.mk [⟨"img/a.png", "aa"⟩] 3).files, f.sha256sum ≠ "bb") ∧
      (Directory.mk [⟨"img/a.png", "aa"⟩] 3).get_file "bb" = none :=
  ⟨by decide, get_file_none_of_no_hash (Directory.mk [⟨"img/a.png", "aa"⟩] 3) "bb" (by decide)⟩

/-- C9: the query operations leave the Index unchanged — after any
sequence of lookups and quota checks, the record list and `total_size`
are identical to their values at construction. -/
theorem queries_leave_index_unchanged (d : Directory) (qs : List Query) :
    (runQueries d qs).files = d.files ∧ (runQueries d qs).total_size = d.total_size := by
  have key : ∀ (d : Directory), runQueries d qs = d := by
    induction qs with
    | nil => intro d; rfl
    | cons q qs ih =>
      intro d
      show runQueries (runQuery d q).2 qs = d
      cases q with
      | lookup h => exact ih d
      | quota m => exact ih d
  rw [key d]
  exact ⟨rfl, rfl⟩

theorem recordOf_eq_none_of_failure :
    ∀ x : Except Unit DirEntry, perFileFailure x = true → recordOf x = none
  | .error _, _ => rfl
  | .ok ⟨p, dir, opn⟩, hf => by
    cases dir with
    | true => simp [recordOf]
    | false =>
      cases opn with
      | none => simp [recordOf]
      | some f =>
        cases f with
        | mk ml dg => cases ml <;> cases dg <;> simp_all [recordOf, perFileFailure]

/-- C6: every per-file failure during a build — an enumeration entry
error, an open failure, a metadata failure or a read/hash failure — is
absorbed: the build still returns an Index, and its records are exactly
those of the same scan without the failed entry, so the affected file is
absent from the records. -/
theorem per_file_failure_absorbed (pat : String)
    (globFn : String → Except Unit (List (Except Unit DirEntry)))
    (l1 l2 : List (Except Unit DirEntry)) (e : Except Unit DirEntry)
    (hg : globFn pat = .ok (l1 ++ e :: l2)) (hf : perFileFailure e = true) :
    ∃ d, Directory.tryFrom (some pat) globFn = .ok d ∧
      d.files = (l1 ++ l2).filterMap recordOf := by
  refine ⟨_, tryFrom_ok pat globFn _ hg, ?_⟩
  simp [List.filterMap_append, List.filterMap_cons, recordOf_eq_none_of_failure e hf]

/-- Witness for C6: a scan whose only entry is a file that failed to open
still builds, with no records. -/
theorem per_file_failure_absorbed_witness :
    ∃ d, Directory.tryFrom (some "files/**/*")
        (fun _ => .ok [Except.ok ⟨"files/locked.bin", false, none⟩]) = .ok d ∧
      d.files = (([] : List (Except Unit DirEntry)) ++ []).filterMap recordOf :=
  per_file_failure_absorbed "files/**/*"
    (fun _ => .ok [Except.ok ⟨"files/locked.bin", false, none⟩]) [] []
    (Except.ok ⟨"files/locked.bin", false, none⟩) rfl rfl

theorem recordOf_some_inv (x : Except Unit DirEntry) (f : File)
    (hrec : recordOf x = some f) :
    ∃ e : DirEntry, x = .ok e ∧ e.isDir = false ∧ f.path = e.path := by
  cases x with
  | error u => simp [recordOf] at hrec
  | ok e =>
    cases e with
    | mk p dir opn =>
      cases dir with
      | true => simp [recordOf] at hrec
      | false =>
        cases opn with
        | none => simp [recordOf] at hrec
        | some of =>
          cases of with
          | mk ml dg =>
            cases ml with
            | none => simp [recordOf] at hrec
            | some s =>
              cases dg with
              | none => simp [recordOf] at hrec
              | some hsh =>
                refine ⟨⟨p, false, some ⟨some s, some hsh⟩⟩, rfl, rfl, ?_⟩
                simp [recordOf] at hrec
                simp [← hrec]

/-- C8: no record of a built Index corresponds to a directory entry —
every record comes from a glob entry whose `is_dir()` check was false
(the scan filters `!path.is_dir()` before opening anything). -/
theorem records_are_not_directories (pat : String)
    (globFn : String → Except Unit (List (Except Unit DirEntry)))
    (entries : List (Except Unit DirEntry)) (d : Directory) (f : File)
    (hg : globFn pat = .ok entries)
    (hd : Directory.tryFrom (some pat) globFn = .ok d)
    (hf : f ∈ d.files) :
    ∃ e : DirEntry, Except.ok e ∈ entries ∧ e.isDir = false ∧ f.path = e.path := by
  rw [tryFrom_ok pat globFn entries hg] at hd
  injection hd with hd
  subst hd
  simp only [List.mem_filterMap] at hf
  obtain ⟨x, hx, hrec⟩ := hf
  obtain ⟨e, rfl, hdir, hpath⟩ := recordOf_some_inv x f hrec
  exact ⟨e, hx, hdir, hpath⟩

/-- Witness for C8 at a one-file scan. -/
theorem records_are_not_directories_witness :
    ∃ e : DirEntry,
      (Except.ok e : Except Unit DirEntry) ∈
          [Except.ok (⟨"img/logo.png", false, some ⟨some 7, some "aa"⟩⟩ : DirEntry)] ∧
        e.isDir = false ∧ (⟨"img/logo.png", "aa"⟩ : File).path = e.path :=
  records_are_not_directories "img/**/*"
    (fun _ => .ok [Except.ok ⟨"img/logo.png", false, some ⟨some 7, some "aa"⟩⟩])
    [Except.ok ⟨"img/logo.png", false, some ⟨some 7, some "aa"⟩⟩]
    ⟨[⟨"img/logo.png", "aa"⟩], 7⟩ ⟨"img/logo.png", "aa"⟩ rfl rfl (by simp)

/-- C10: a file that opens but whose size-metadata query fails is
excluded from the records and contributes nothing to `total_size`: the
build with such an entry equals the build without it. -/
theorem metadata_failure_excluded (pat p : String) (dg : Option String)
    (l1 l2 : List (Except Unit DirEntry)) :
    Directory.tryFrom (some pat)
        (fun _ => .ok (l1 ++ .ok ⟨p, false, some ⟨none, dg⟩⟩ :: l2)) =
      Directory.tryFrom (some pat) (fun _ => .ok (l1 ++ l2)) := by
  rw [tryFrom_ok pat _ _ rfl, tryFrom_ok pat _ _ rfl]
  simp [List.filterMap_append, List.filterMap_cons, recordOf, sizeContribution]

/-- Size, per C1's reading, of the file behind one glob entry when that
entry appears as a record: present exactly when the entry yields a
record (non-directory, opened, metadata read, hashed), and then equal to
its metadata length. -/
def recordSize : Except Unit DirEntry → Option Nat
  | .error _ => none
  | .ok e =>
    if e.isDir then none
    else
      match e.openResult with
      | none => none
      | some f =>
        match f.sha256Digest with
        | none => none
        | some _ => f.metadataLen

/-- A file that opens with size 5 but whose hashing fails. -/
def hashFailEntry : Except Unit DirEntry :=
  .ok ⟨"files/broken.bin", false, some ⟨some 5, none⟩⟩

/-- C1 counterexample: a scan of one file that opens (size 5) but fails
to hash yields an Index with no records yet `total_size = 5`, while the
sum of the sizes of the files that appear in the record list is 0 — the
`total_size += size` line of `Directory::try_from` runs before the
hashing stage, so a hash failure still contributes its size. -/
theorem total_size_claim_counterexample :
    Directory.tryFrom (some "files/**/*") (fun _ => .ok [hashFailEntry]) =
        .ok ⟨[], 5⟩ ∧
      ([hashFailEntry].filterMap recordSize).foldl Nat.add 0 = 0 ∧
      (5 : Nat) ≠ 0 :=
  ⟨rfl, rfl, by decide⟩

theorem foldl_wrapAdd_eq_sum (l : List Nat) (t : Nat) (hfit : t + l.sum < 2 ^ 64) :
    l.foldl wrapAdd t = t + l.sum := by
  induction l generalizing t with
  | nil => simp
  | cons a l ih =>
    have h1 : t + a + l.sum < 2 ^ 64 := by
      simpa [Nat.add_assoc] using hfit
    have h2 : wrapAdd t a = t + a := by
      have hlt : t + a < 2 ^ 64 :=
        Nat.lt_of_le_of_lt (Nat.le_add_right _ _) h1
      simpa [wrapAdd] using Nat.mod_eq_of_lt hlt
    rw [List.foldl_cons, h2, ih (t + a) h1, List.sum_cons]
    omega

/-- C1 amended: provided the aggregate fits in 64 bits, `total_size`
equals the exact sum of the sizes of the files that were successfully
opened and whose size metadata was read — including files whose hashing
then failed, which contribute their size but do not appear as records;
files that failed to open (or whose metadata query failed) contribute
zero and do not appear.  The records are exactly the fully successful
entries. -/
theorem total_size_amended (pat : String)
    (globFn : String → Except Unit (List (Except Unit DirEntry)))
    (entries : List (Except Unit DirEntry))
    (hg : globFn pat = .ok entries)
    (hfit : (entries.filterMap sizeContribution).sum < 2 ^ 64) :
    ∃ d, Directory.tryFrom (some pat) globFn = .ok d ∧
      d.total_size = (entries.filterMap sizeContribution).sum ∧
      d.files = entries.filterMap recordOf := by
  refine ⟨_, tryFrom_ok pat globFn entries hg, ?_, rfl⟩
  simpa using foldl_wrapAdd_eq_sum (entries.filterMap sizeContribution) 0 (by simpa using hfit)

/-- Witness for the amended C1, on the hash-failing scan. -/
theorem total_size_amended_witness :
    ∃ d, Directory.tryFrom (some "files/**/*") (fun _ => .ok [hashFailEntry]) = .ok d ∧
      d.total_size = ([hashFailEntry].filterMap sizeContribution).sum ∧
      d.files = [hashFailEntry].filterMap recordOf :=
  total_size_amended "files/**/*" (fun _ => .ok [hashFailEntry]) [hashFailEntry] rfl
    (by decide)

/-- C2: a lookup never returns a record whose path matches the
timestamp-suffix exclusion predicate, even when its hash matches; when a
non-excluded record with the queried hash exists it returns one such
record, and when every record with the queried hash is excluded it
returns nothing.  The final two conjuncts tie the modelled predicate to
the spec's convention: `upload-20230101120000.png` is excluded,
`upload.png` is not. -/
theorem get_file_timestamped_excluded (d : Directory) (h : String) :
    (∀ f ∈ d.files, TIMESTAMP_EXTENSION_REGEX_isMatch f.path = true → d.get_file h ≠ some f) ∧
      ((∃ f ∈ d.files, f.sha256sum = h ∧ TIMESTAMP_EXTENSION_REGEX_isMatch f.path = false) →
        ∃ f, d.get_file h = some f ∧ f ∈ d.files ∧ f.sha256sum = h ∧
          TIMESTAMP_EXTENSION_REGEX_isMatch f.path = false) ∧
      ((∀ f ∈ d.files, f.sha256sum = h → TIMESTAMP_EXTENSION_REGEX_isMatch f.path = true) →
        d.get_file h = none) ∧
      TIMESTAMP_EXTENSION_REGEX_isMatch "upload-20230101120000.png" = true ∧
      TIMESTAMP_EXTENSION_REGEX_isMatch "upload.png" = false := by
  refine ⟨?_, ?_, ?_, by decide, by decide⟩
  · intro f hf hts hsome
    have hp := List.find?_some hsome
    simp [hts] at hp
  · rintro ⟨f, hf, hsha, hts⟩
    have hsm : (d.files.find? fun file =>
        file.sha256sum == h && !TIMESTAMP_EXTENSION_REGEX_isMatch file.path).isSome := by
      rw [List.find?_isSome]
      exact ⟨f, hf, by simp [hsha, hts]⟩
    obtain ⟨g, hg⟩ := Option.isSome_iff_exists.mp hsm
    have hpg := List.find?_some hg
    have hmem := List.mem_of_find?_eq_some hg
    simp only [Bool.and_eq_true, beq_iff_eq, Bool.not_eq_true'] at hpg
    exact ⟨g, hg, hmem, hpg.1, hpg.2⟩
  · intro hall
    apply List.find?_eq_none.mpr
    intro f hf
    by_cases hs : f.sha256sum = h
    · simp [hs, hall f hf hs]
    · simp [hs]
